import Mathlib

/-!
Shallow embedding of `src/Disunity.py`: the `ChunkedFileIO` virtual chunk
stream, the `BinaryReader` primitive reader and the `SerializedFileReader`
format decoder. Bytes are modelled as `Nat` values (each `< 256` in a real
execution), streams as lists of bytes with an explicit cursor, and every
Python exception as a constructor of `PyErr`.
-/

namespace Disunity

/-- The Python exceptions the program can raise, one constructor per
`raise` site (or per built-in error the interpreter raises). -/
inductive PyErr where
  /-- Models `IndexError`: `self.chunks[self.index]` or `self.chunks[-1]` on a list
  that has no such element. -/
  | indexError
  /-- Models `NameError`: a name is evaluated that was never bound
  (e.g. `path_id` inside `read_types`, or `chunk` in `chunk_find` when the
  chunk list is empty). -/
  | nameError (n : String)
  /-- Models `AttributeError`: a `Munch` attribute is read that was never set. -/
  | attributeError (n : String)
  /-- Models `ValueError("Offset out of range")` raised by `Chunk.seek`. -/
  | outOfRange
  /-- Models `ValueError` from seeking a plain stream to a negative offset. -/
  | negativeSeek
  /-- Models `NotImplementedError` for an unknown `whence` in `ChunkedFileIO.seek`. -/
  | notImplementedWhence
  /-- Models `struct.error`: `struct.unpack` got fewer bytes than the format needs. -/
  | shortRead
  /-- Models `ValueError` from `UUID(bytes=...)` on a buffer that is not 16 bytes. -/
  | badUuid
  /-- Models `UnicodeDecodeError` from `.decode("ascii")` on a byte `≥ 128`. -/
  | nonAscii
  /-- Models `RuntimeError("Invalid dataOffset %d")`. -/
  | invalidDataOffset (d : Int)
  /-- Models `RuntimeError("Invalid metadataSize %d")`. -/
  | invalidMetadataSize (m : Int)
  /-- Models `NotImplementedError("Unsupported format version %d")`. -/
  | unsupportedVersion (v : Int)
  /-- Models `NotImplementedError("Runtime type node reading")`. -/
  | unsupportedTypeNodes
  /-- Models `RuntimeError("Duplicate path ID %d")` in `read_objects`. -/
  | duplicateKey (k : Int)
deriving DecidableEq

/-- A plain in-memory byte stream (an opened file / `io.BytesIO`):
the full contents plus the current cursor. -/
structure BStream where
  data : List Nat
  pos : Nat
deriving DecidableEq

/-- Models `file.read(size)` for `size ≥ 0`: up to `size` bytes from the cursor,
advancing it; reading at or past the end returns the empty byte string. -/
def BStream.read (s : BStream) (size : Nat) : List Nat × BStream :=
  let out := (s.data.drop s.pos).take size
  (out, { s with pos := s.pos + out.length })

/-- Models `file.seek(offset)` (absolute): negative offsets raise `ValueError`,
any non-negative offset (even past the end) is accepted. -/
def BStream.seek (s : BStream) (offset : Int) : Except PyErr BStream :=
  if offset < 0 then .error .negativeSeek
  else .ok { s with pos := offset.toNat }

/-- One `ChunkedFileIO.Chunk`: the bytes of the underlying file, the
logical start offset (`self.start`) and the handle's own cursor.
`self.size` and `self.end` are derived (`Chunk.size`, `Chunk.endPos`). -/
structure Chunk where
  data : List Nat
  start : Nat
  pos : Nat
deriving DecidableEq

/-- Models `self.size`: the length of the underlying file. -/
def Chunk.size (c : Chunk) : Nat := c.data.length

/-- Models `self.end` (a Lean keyword, hence the name): `start + size`. -/
def Chunk.endPos (c : Chunk) : Nat := c.start + c.size

/-- Models `Chunk.tell`: `self.start + self.handle.tell()`. -/
def Chunk.tell (c : Chunk) : Nat := c.start + c.pos

/-- Models `Chunk.read(size)`: `handle.read(size)`; a negative size reads all
remaining bytes of this chunk. -/
def Chunk.read (c : Chunk) (size : Int) : List Nat × Chunk :=
  let avail := c.data.drop c.pos
  let out := if size < 0 then avail else avail.take size.toNat
  (out, { c with pos := c.pos + out.length })

/-- Models `Chunk.seek(offset)`: makes the offset chunk-relative and raises
`ValueError` when it falls outside `[0, size]`. -/
def Chunk.seek (c : Chunk) (offset : Int) : Except PyErr Chunk :=
  let off := offset - (c.start : Int)
  if off < 0 ∨ (c.size : Int) < off then .error .outOfRange
  else .ok { c with pos := off.toNat }

/-- The `ChunkedFileIO` object state: the chunk list and the active-chunk
cursor. In the Python source both `chunks = []` and `index = 0` are *class*
attributes; `index` is only ever rebound per instance (`self.index += 1`),
but the `chunks` list object is shared by every instance (see
`ChunkedFile.initChunks`). Named `ChunkedFile` here. -/
structure ChunkedFile where
  chunks : List Chunk
  index : Nat
deriving DecidableEq

/-- The loop body of `ChunkedFileIO.__init__`: starting from the current
contents of the class-level `chunks` list (`acc`), lay the given sources
end to end from logical offset `pos = 0`, skipping (closing) empty ones,
and append each resulting chunk to the shared list. -/
def ChunkedFile.initChunks (acc : List Chunk) (pos : Nat) :
    List (List Nat) → List Chunk
  | [] => acc
  | src :: rest =>
    let c : Chunk := ⟨src, pos, 0⟩
    if c.size = 0 then initChunks acc pos rest
    else initChunks (acc ++ [c]) (pos + c.size) rest

/-- Constructing a `ChunkedFileIO` in a fresh interpreter (class-level
`chunks` list still empty, `index = 0`). -/
def ChunkedFile.init (sources : List (List Nat)) : ChunkedFile :=
  ⟨initChunks [] 0 sources, 0⟩

/-- Models `ChunkedFileIO.chunk`: `self.chunks[self.index]`, raising `IndexError`
when the index is out of range. -/
def ChunkedFile.chunk (s : ChunkedFile) : Except PyErr Chunk :=
  match s.chunks[s.index]? with
  | some c => .ok c
  | none => .error .indexError

/-- Models `ChunkedFileIO.chunk_next`: `None` when the active chunk is the last,
otherwise the state with the cursor advanced plus the new active chunk. -/
def ChunkedFile.chunk_next (s : ChunkedFile) :
    Except PyErr (Option (ChunkedFile × Chunk)) :=
  if s.chunks.length ≤ s.index + 1 then .ok none
  else
    let s' : ChunkedFile := { s with index := s.index + 1 }
    match s'.chunk with
    | .ok c => .ok (some (s', c))
    | .error e => .error e

/-- The `for self.index, chunk in enumerate(self.chunks)` loop of
`chunk_find`: returns the first `(index, chunk)` whose `end ≥ target`;
when no chunk qualifies the loop leaves the last `(index, chunk)` bound;
on an empty list `chunk` is never bound (`none`, a `NameError`). -/
def ChunkedFile.chunk_find_go (target : Int) :
    List Chunk → Nat → Option (Nat × Chunk)
  | [], _ => none
  | [c], i => some (i, c)
  | c :: c' :: rest, i =>
    if target ≤ (c.endPos : Int) then some (i, c)
    else chunk_find_go target (c' :: rest) (i + 1)

/-- Models `ChunkedFileIO.chunk_find(pos)`: linear scan mutating `self.index`. -/
def ChunkedFile.chunk_find (s : ChunkedFile) (target : Int) :
    Except PyErr (ChunkedFile × Chunk) :=
  match chunk_find_go target s.chunks 0 with
  | some (i, c) => .ok ({ s with index := i }, c)
  | none => .error (.nameError "chunk")

/-- Models `ChunkedFileIO.read(size)`: read from the active chunk; when that
yields no bytes, move to the next chunk (if any) and read once more. -/
def ChunkedFile.read (s : ChunkedFile) (size : Int) :
    Except PyErr (List Nat × ChunkedFile) := do
  let c ← s.chunk
  let (data, c') := c.read size
  let s1 : ChunkedFile := { s with chunks := s.chunks.set s.index c' }
  if data = [] then
    match ← s1.chunk_next with
    | none => pure (data, s1)
    | some (s2, c2) =>
      let (data2, c2') := c2.read size
      pure (data2, { s2 with chunks := s2.chunks.set s2.index c2' })
  else pure (data, s1)

/-- Models `ChunkedFileIO.seek(offset, whence)`: resolve the origin
(`0 = SEEK_SET`, `1 = SEEK_CUR`, `2 = SEEK_END`) to an absolute offset,
scan for a new chunk when the target leaves the active one, then seek
inside the selected chunk. -/
def ChunkedFile.seek (s : ChunkedFile) (offset : Int) (whence : Nat) :
    Except PyErr ChunkedFile := do
  let c ← s.chunk
  let pos : Int ←
    if whence = 1 then pure (offset + (c.tell : Int))
    else if whence = 2 then
      match s.chunks.getLast? with
      | some last => pure (offset + (last.endPos : Int))
      | none => .error .indexError
    else if whence ≠ 0 then .error .notImplementedWhence
    else pure offset
  let (s', c') ←
    if pos < (c.start : Int) ∨ (c.endPos : Int) < pos then s.chunk_find pos
    else pure (s, c)
  let c'' ← c'.seek pos
  pure { s' with chunks := s'.chunks.set s'.index c'' }

/-- Models `ChunkedFileIO.tell`: the active chunk's `tell`. -/
def ChunkedFile.tell (s : ChunkedFile) : Except PyErr Nat := do
  let c ← s.chunk
  pure c.tell

/-- Models `BinaryReader`: the wrapped stream plus the byte-order flag `be`
(a per-instance attribute, `False` on construction). -/
structure BinaryReader where
  be : Bool
  file : BStream
deriving DecidableEq

/-- Models `BinaryReader(file)`. -/
def BinaryReader.init (file : BStream) : BinaryReader := ⟨false, file⟩

/-- Models `BinaryReader.tell`. -/
def BinaryReader.tell (r : BinaryReader) : Nat := r.file.pos

/-- Models `BinaryReader.seek(offset)` (whence 0). -/
def BinaryReader.seek (r : BinaryReader) (offset : Int) :
    Except PyErr BinaryReader := do
  let f ← r.file.seek offset
  pure { r with file := f }

/-- Models `BinaryReader.align(pad)`: round the position up to the next multiple
of `pad` and seek there when that moves it. -/
def BinaryReader.align (r : BinaryReader) (pad : Nat) :
    Except PyErr BinaryReader :=
  let pos := r.tell
  let newpos := (pos + pad - 1) / pad * pad
  if newpos ≠ pos then r.seek (newpos : Int) else .ok r

/-- Models `BinaryReader.read(size)`. -/
def BinaryReader.read (r : BinaryReader) (size : Nat) :
    List Nat × BinaryReader :=
  let (out, f) := r.file.read size
  (out, { r with file := f })

/-- Models `BinaryReader.read_int8`: one byte, or `None` at end of stream
(`b[0] if b else None`) - never an error. -/
def BinaryReader.read_int8 (r : BinaryReader) : Option Nat × BinaryReader :=
  let (b, r') := r.read 1
  (b.head?, r')

/-- The accumulation loop of `read_cstring` on the remaining bytes:
returns the accumulated buffer and how many bytes were consumed
(the terminating zero is consumed; exhaustion consumes nothing more). -/
def cstring_go : List Nat → List Nat → List Nat × Nat
  | [], buf => (buf, 0)
  | b :: rest, buf =>
    if b = 0 then (buf, 1)
    else
      let (res, n) := cstring_go rest (buf ++ [b])
      (res, n + 1)

/-- Models `bytes.decode("ascii")`: fails on any byte `≥ 128`. -/
def asciiDecode (bs : List Nat) : Option String :=
  if bs.all (· < 128) then some ⟨bs.map Char.ofNat⟩ else none

/-- Models `BinaryReader.read_cstring`: accumulate bytes up to a zero byte or the
end of the stream, then ASCII-decode whatever accumulated. -/
def BinaryReader.read_cstring (r : BinaryReader) :
    Except PyErr (String × BinaryReader) :=
  let (buf, n) := cstring_go (r.file.data.drop r.file.pos) []
  match asciiDecode buf with
  | some str =>
    .ok (str, { r with file := { r.file with pos := r.file.pos + n } })
  | none => .error .nonAscii

/-- Models `struct.calcsize`-many raw bytes; `struct.unpack` raises `struct.error`
when fewer bytes were available. -/
def BinaryReader.read_struct (r : BinaryReader) (size : Nat) :
    Except PyErr (List Nat × BinaryReader) :=
  let (data, r') := r.read size
  if data.length = size then .ok (data, r') else .error .shortRead

/-- A little-endian base-256 value. -/
def natOfBytesLE : List Nat → Nat
  | [] => 0
  | b :: rest => b + 256 * natOfBytesLE rest

/-- The integer `struct.unpack` produces from `bs`: big-endian when `be`
(the `">"` prefix), native little-endian otherwise; two's-complement when
the format character is signed. -/
def decodeBytes (be signed : Bool) (bs : List Nat) : Int :=
  let u : Nat := natOfBytesLE (if be then bs.reverse else bs)
  if signed ∧ 2 ^ (8 * bs.length - 1) ≤ u then
    (u : Int) - 2 ^ (8 * bs.length)
  else (u : Int)

/-- Models `BinaryReader.read_int(type)` for a fixed-width format character. -/
def BinaryReader.read_int (r : BinaryReader) (size : Nat) (signed : Bool) :
    Except PyErr (Int × BinaryReader) := do
  let (data, r') ← r.read_struct size
  pure (decodeBytes r.be signed data, r')

/-- Models `read_int16` (`"h"`). -/
def BinaryReader.read_int16 (r : BinaryReader) := r.read_int 2 true

/-- Models `read_uint16` (`"H"`). -/
def BinaryReader.read_uint16 (r : BinaryReader) := r.read_int 2 false

/-- Models `read_int32` (`"i"`). -/
def BinaryReader.read_int32 (r : BinaryReader) := r.read_int 4 true

/-- Models `read_uint32` (`"I"`). -/
def BinaryReader.read_uint32 (r : BinaryReader) := r.read_int 4 false

/-- Models `read_int64` (`"q"`). -/
def BinaryReader.read_int64 (r : BinaryReader) := r.read_int 8 true

/-- Models `read_uint64` (`"Q"`). -/
def BinaryReader.read_uint64 (r : BinaryReader) := r.read_int 8 false

/-- Models `BinaryReader.read_uuid`: exactly 16 raw bytes
(`UUID(bytes=...)` raises `ValueError` on any other length). -/
def BinaryReader.read_uuid (r : BinaryReader) :
    Except PyErr (List Nat × BinaryReader) :=
  let (data, r') := r.read 16
  if data.length = 16 then .ok (data, r') else .error .badUuid

/-- Models `sf.header`. -/
structure Header where
  metadataSize : Int
  fileSize : Int
  version : Int
  dataOffset : Int
  /-- set only when `version ≥ 9`; inner `Option` because `read_int8`
  can itself yield `None`. -/
  endianness : Option (Option Nat)
deriving DecidableEq

/-- One entry of `sf.types.classes` (`bclass`). -/
structure SClass where
  script_id : Option (List Nat)
  old_type_hash : List Nat
deriving DecidableEq

/-- Models `sf.types`. -/
structure STypes where
  signature : Option String
  attributes : Option Int
  embedded : Option Bool
  classes : List (Int × SClass)
deriving DecidableEq

/-- One entry of `sf.objects`. -/
structure SObject where
  byte_start : Int
  byte_size : Int
  type_id : Int
  class_id : Int
  script_type_index : Option Int
  is_destroyed : Option Bool
  stripped : Option Bool
deriving DecidableEq

/-- One entry of `sf.script_types`. -/
structure SScriptType where
  serialized_file_index : Int
  identifier_in_file : Int
deriving DecidableEq

/-- One entry of `sf.externals`. -/
structure SExternal where
  asset_path : Option String
  guid : List Nat
  type_code : Int
  file_path : String
deriving DecidableEq

/-- The decoded document `sf`. -/
structure SFile where
  header : Header
  types : STypes
  objects : List (Int × SObject)
  script_types : List SScriptType
  externals : List SExternal
deriving DecidableEq

/-- Models `SerializedFileReader.read_header`. -/
def SerializedFileReader.read_header (r : BinaryReader) :
    Except PyErr (Header × BinaryReader) := do
  let r := { r with be := true }
  let (metadataSize, r) ← r.read_int32
  let (fileSize, r) ← r.read_int32
  let (version, r) ← r.read_int32
  let (dataOffset, r) ← r.read_int32
  if fileSize < dataOffset then .error (.invalidDataOffset dataOffset)
  else if fileSize < metadataSize then .error (.invalidMetadataSize metadataSize)
  else do
    let (endianness, r) ←
      if 9 ≤ version then
        let (e, r) := r.read_int8
        let (_, r) := r.read 3
        pure (some e, r)
      else pure ((none : Option (Option Nat)), r)
    let r := if 5 < version then { r with be := false } else r
    if version ≠ 15 then .error (.unsupportedVersion version)
    else pure (⟨metadataSize, fileSize, version, dataOffset, endianness⟩, r)

/-- The class-entry loop of `read_types`. The duplicate-class check
evaluates `"Duplicate class ID %d" % path_id`, but `path_id` is not a name
bound in `read_types`, so a duplicate raises `NameError` instead of the
intended `RuntimeError`. The `embedded` flag is a `Munch` attribute that is
only present when `version > 13` (`AttributeError` otherwise). -/
def SerializedFileReader.read_types_go (embedded : Option Bool) :
    Nat → List (Int × SClass) → BinaryReader →
    Except PyErr (List (Int × SClass) × BinaryReader)
  | 0, classes, r => pure (classes, r)
  | n + 1, classes, r => do
    let (class_id, r) ← r.read_int32
    let (script_id, r) ←
      if class_id < 0 then do
        let (u, r) ← r.read_uuid
        pure (some u, r)
      else pure ((none : Option (List Nat)), r)
    let (old_type_hash, r) ← r.read_uuid
    match embedded with
    | none => .error (.attributeError "embedded")
    | some emb =>
      if emb then .error .unsupportedTypeNodes
      else if classes.any (fun kv => kv.1 = class_id) then
        .error (.nameError "path_id")
      else
        read_types_go embedded n
          (classes ++ [(class_id, ⟨script_id, old_type_hash⟩)]) r

/-- Models `SerializedFileReader.read_types`. -/
def SerializedFileReader.read_types (hdr : Header) (r : BinaryReader) :
    Except PyErr (STypes × BinaryReader) := do
  let r ←
    if hdr.version < 9 then
      r.seek (hdr.fileSize - hdr.metadataSize + 1)
    else pure r
  let (signature, attributes, r) ←
    if 6 < hdr.version then do
      let (sig, r) ← r.read_cstring
      let (attrs, r) ← r.read_int32
      pure (some sig, some attrs, r)
    else pure ((none : Option String), (none : Option Int), r)
  let (embedded, r) ←
    if 13 < hdr.version then
      let (b, r) := r.read_int8
      pure (some (decide (b ≠ some 0)), r)
    else pure ((none : Option Bool), r)
  let (num_classes, r) ← r.read_int32
  let (classes, r) ← read_types_go embedded num_classes.toNat [] r
  pure (⟨signature, attributes, embedded, classes⟩, r)

/-- The entry loop of `read_objects`; a duplicate 64-bit path identifier
raises `RuntimeError("Duplicate path ID %d" % path_id)`. -/
def SerializedFileReader.read_objects_go (version : Int) :
    Nat → List (Int × SObject) → BinaryReader →
    Except PyErr (List (Int × SObject) × BinaryReader)
  | 0, objs, r => pure (objs, r)
  | n + 1, objs, r => do
    let r ← if 13 < version then r.align 4 else pure r
    let (path_id, r) ← r.read_int64
    let (byte_start, r) ← r.read_uint32
    let (byte_size, r) ← r.read_uint32
    let (type_id, r) ← r.read_int32
    let (class_id, r) ← r.read_int16
    let (sti, isd, r) ←
      if 13 < version then do
        let (x, r) ← r.read_int16
        pure (some x, (none : Option Bool), r)
      else do
        let (x, r) ← r.read_int16
        pure ((none : Option Int), some (decide (x ≠ 0)), r)
    let (stripped, r) ←
      if 14 < version then
        let (b, r) := r.read_int8
        pure (some (decide (b ≠ some 0)), r)
      else pure ((none : Option Bool), r)
    if objs.any (fun kv => kv.1 = path_id) then .error (.duplicateKey path_id)
    else
      read_objects_go version n
        (objs ++ [(path_id, ⟨byte_start, byte_size, type_id, class_id,
                             sti, isd, stripped⟩)]) r

/-- Models `SerializedFileReader.read_objects`. -/
def SerializedFileReader.read_objects (hdr : Header) (r : BinaryReader) :
    Except PyErr (List (Int × SObject) × BinaryReader) := do
  let (num_entries, r) ← r.read_int32
  read_objects_go hdr.version num_entries.toNat [] r

/-- The entry loop of `read_script_types`. -/
def SerializedFileReader.read_script_types_go :
    Nat → List SScriptType → BinaryReader →
    Except PyErr (List SScriptType × BinaryReader)
  | 0, acc, r => pure (acc, r)
  | n + 1, acc, r => do
    let r ← r.align 4
    let (sfi, r) ← r.read_int32
    let (idf, r) ← r.read_int64
    read_script_types_go n (acc ++ [⟨sfi, idf⟩]) r

/-- Models `SerializedFileReader.read_script_types`. -/
def SerializedFileReader.read_script_types (r : BinaryReader) :
    Except PyErr (List SScriptType × BinaryReader) := do
  let (num_entries, r) ← r.read_int32
  read_script_types_go num_entries.toNat [] r

/-- The entry loop of `read_externals`. -/
def SerializedFileReader.read_externals_go (version : Int) :
    Nat → List SExternal → BinaryReader →
    Except PyErr (List SExternal × BinaryReader)
  | 0, acc, r => pure (acc, r)
  | n + 1, acc, r => do
    let (asset_path, r) ←
      if 5 < version then do
        let (s, r) ← r.read_cstring
        pure (some s, r)
      else pure ((none : Option String), r)
    let (guid, r) ← r.read_uuid
    let (tc, r) ← r.read_int32
    let (file_path, r) ← r.read_cstring
    read_externals_go version n (acc ++ [⟨asset_path, guid, tc, file_path⟩]) r

/-- Models `SerializedFileReader.read_externals`. -/
def SerializedFileReader.read_externals (hdr : Header) (r : BinaryReader) :
    Except PyErr (List SExternal × BinaryReader) := do
  let (num_entries, r) ← r.read_int32
  read_externals_go hdr.version num_entries.toNat [] r

/-- Models `SerializedFileReader.read`: the whole decode of one serialized file. -/
def SerializedFileReader.read (file : BStream) : Except PyErr SFile := do
  let r := BinaryReader.init file
  let (header, r) ← SerializedFileReader.read_header r
  let (types, r) ← SerializedFileReader.read_types header r
  let (objects, r) ← SerializedFileReader.read_objects header r
  let (script_types, r) ←
    if 10 < header.version then SerializedFileReader.read_script_types r
    else pure (([] : List SScriptType), r)
  let (externals, _) ← SerializedFileReader.read_externals header r
  pure ⟨header, types, objects, script_types, externals⟩


/-! ### Helper lemmas -/

/-- Models `read_struct` fails with `struct.error` whenever fewer bytes remain
than the format width requires. -/
theorem read_struct_short (r : BinaryReader) (size : Nat)
    (h : r.file.data.length - r.file.pos < size) :
    r.read_struct size = .error .shortRead := by
  unfold BinaryReader.read_struct BinaryReader.read BStream.read
  simp only [List.length_take, List.length_drop]
  rw [if_neg]
  omega

/-- The `read_cstring` loop on a zero-free byte list accumulates the whole
list and consumes exactly its length. -/
theorem cstring_go_no_zero : ∀ (l buf : List Nat), (∀ b ∈ l, b ≠ 0) →
    cstring_go l buf = (buf ++ l, l.length)
  | [], buf, _ => by simp [cstring_go]
  | b :: rest, buf, h => by
    have hb : b ≠ 0 := h b (by simp)
    have ih := cstring_go_no_zero rest (buf ++ [b])
      (fun x hx => h x (by simp [hx]))
    simp [cstring_go, hb, ih]

/-- Models `__init__` on sources that are all empty appends nothing to the
class-level chunk list. -/
theorem initChunks_all_empty :
    ∀ (sources : List (List Nat)) (acc : List Chunk) (pos : Nat),
      (∀ s ∈ sources, s = []) → ChunkedFile.initChunks acc pos sources = acc
  | [], _, _, _ => rfl
  | src :: rest, acc, pos, h => by
    have hs : src = [] := h src (by simp)
    have ih := initChunks_all_empty rest acc pos (fun s hsm => h s (by simp [hsm]))
    simp [ChunkedFile.initChunks, hs, Chunk.size, ih]

/-- Models `Except` bind on a success, stated for rewriting. -/
theorem except_bind_ok {e a b : Type} (x : a) (f : a → Except e b) :
    (Except.ok x >>= f) = f x := rfl

/-- Models `Except` bind on a failure, stated for rewriting. -/
theorem except_bind_error {e a b : Type} (err : e) (f : a → Except e b) :
    ((Except.error err : Except e a) >>= f) = Except.error err := rfl

/-- Models `Except` bind on a `pure`, stated for rewriting. -/
theorem except_pure_bind {e a b : Type} (x : a) (f : a → Except e b) :
    ((pure x : Except e a) >>= f) = f x := rfl

/-! ### C9: alignment -/

/-- Claim C9: `align` moves the logical position to the least multiple of
the boundary that is at least the current position (seeking, so the
underlying data and byte-order flag are untouched), and when the position
is already a multiple of the boundary it performs no seek and returns the
reader unchanged. -/
theorem c9_align (r : BinaryReader) (pad : Nat) (hp : 0 < pad) :
    BinaryReader.align r pad =
      .ok { r with file :=
        { r.file with pos := (r.file.pos + pad - 1) / pad * pad } } ∧
    pad ∣ (r.file.pos + pad - 1) / pad * pad ∧
    r.file.pos ≤ (r.file.pos + pad - 1) / pad * pad ∧
    (r.file.pos + pad - 1) / pad * pad < r.file.pos + pad ∧
    (pad ∣ r.file.pos → BinaryReader.align r pad = .ok r) := by
  have hub : (r.file.pos + pad - 1) / pad * pad ≤ r.file.pos + pad - 1 :=
    Nat.div_mul_le_self _ _
  have hlb : r.file.pos ≤ (r.file.pos + pad - 1) / pad * pad := by
    by_contra hcon
    push_neg at hcon
    have hexp : ((r.file.pos + pad - 1) / pad + 1) * pad =
        (r.file.pos + pad - 1) / pad * pad + pad := by ring
    have h1 : ((r.file.pos + pad - 1) / pad + 1) * pad ≤ r.file.pos + pad - 1 := by
      omega
    have h2 : (r.file.pos + pad - 1) / pad + 1 ≤ (r.file.pos + pad - 1) / pad :=
      (Nat.le_div_iff_mul_le hp).2 h1
    omega
  have hdvd_eq : pad ∣ r.file.pos →
      (r.file.pos + pad - 1) / pad * pad = r.file.pos := by
    rintro ⟨c, hc⟩
    rw [hc]
    have h1 : pad * c + pad - 1 = pad * c + (pad - 1) := by omega
    rw [h1, Nat.mul_add_div hp, Nat.div_eq_of_lt (by omega), Nat.add_zero]
    exact Nat.mul_comm c pad
  have heq : BinaryReader.align r pad =
      .ok { r with file :=
        { r.file with pos := (r.file.pos + pad - 1) / pad * pad } } := by
    unfold BinaryReader.align BinaryReader.seek BStream.seek BinaryReader.tell
    by_cases hne : (r.file.pos + pad - 1) / pad * pad ≠ r.file.pos
    · rw [if_pos hne]
      have hnn : ¬ (((r.file.pos + pad - 1) / pad * pad : Nat) : Int) < 0 :=
        Int.not_lt.2 (Int.natCast_nonneg _)
      rw [if_neg hnn]
      rfl
    · rw [if_neg hne]
      push_neg at hne
      rw [hne]
  refine ⟨heq, dvd_mul_left pad _, hlb, by omega, fun hdvd => ?_⟩
  rw [heq, hdvd_eq hdvd]

/-- Witness for C9 at logical position 5 and boundary 4: the position
moves to 8 and nothing else changes; a second application of the theorem's
no-op clause at position 8 leaves the reader unchanged. -/
theorem c9_align_witness :
    BinaryReader.align ⟨false, ⟨[0, 0, 0, 0, 0, 0, 0, 0, 0, 0], 5⟩⟩ 4 =
      .ok ⟨false, ⟨[0, 0, 0, 0, 0, 0, 0, 0, 0, 0], 8⟩⟩ ∧
    BinaryReader.align ⟨false, ⟨[0, 0, 0, 0, 0, 0, 0, 0, 0, 0], 8⟩⟩ 4 =
      .ok ⟨false, ⟨[0, 0, 0, 0, 0, 0, 0, 0, 0, 0], 8⟩⟩ :=
  ⟨(c9_align ⟨false, ⟨[0, 0, 0, 0, 0, 0, 0, 0, 0, 0], 5⟩⟩ 4 (by decide)).1,
   (c9_align ⟨false, ⟨[0, 0, 0, 0, 0, 0, 0, 0, 0, 0], 8⟩⟩ 4 (by decide)).2.2.2.2
     (by decide)⟩

/-! ### C10: empty chunk list -/

/-- Claim C10: when every given source is empty (in particular when the
source list itself is empty) the filtered chunk list is empty, and every
subsequent `tell` or `read` raises `IndexError` instead of acting as an
empty stream. -/
theorem c10_empty_stream (sources : List (List Nat))
    (h : ∀ s ∈ sources, s = []) :
    ChunkedFile.init sources = ⟨[], 0⟩ ∧
    (ChunkedFile.init sources).tell = .error .indexError ∧
    ∀ size, (ChunkedFile.init sources).read size = .error .indexError := by
  have hinit : ChunkedFile.init sources = ⟨[], 0⟩ := by
    unfold ChunkedFile.init
    rw [initChunks_all_empty sources [] 0 h]
  refine ⟨hinit, ?_, fun size => ?_⟩ <;> rw [hinit] <;> rfl

/-- Witness for C10: two zero-length sources. -/
theorem c10_empty_stream_witness :
    ChunkedFile.init [[], []] = ⟨[], 0⟩ ∧
    (ChunkedFile.init [[], []]).tell = .error .indexError ∧
    ∀ size, (ChunkedFile.init [[], []]).read size = .error .indexError :=
  c10_empty_stream [[], []] (by decide)

/-! ### C3: the class-level chunk list is shared between instances -/

/-- Claim C3 (refuted - code bug): `chunks = []` is a class attribute, so
`__init__` of a second `ChunkedFileIO` instance appends to the very list
the first instance reads as `self.chunks`. After constructing a second
instance from a one-byte source, the shared list both instances see has
grown from one chunk to two (and the second instance sees the first
instance's chunk, laid out at the same logical start 0). -/
theorem c3_shared_chunks :
    ChunkedFile.initChunks (ChunkedFile.initChunks [] 0 [[1]]) 0 [[2]] ≠
      ChunkedFile.initChunks [] 0 [[1]] ∧
    ChunkedFile.initChunks [] 0 [[1]] = [⟨[1], 0, 0⟩] ∧
    ChunkedFile.initChunks (ChunkedFile.initChunks [] 0 [[1]]) 0 [[2]] =
      [⟨[1], 0, 0⟩, ⟨[2], 0, 0⟩] := by
  refine ⟨by decide, rfl, rfl⟩

/-! ### C4: read_cstring at end of stream -/

/-- Claim C4 (refuted): a stream whose remaining bytes contain no zero
byte makes `read_cstring` return the accumulated bytes as a successful
(truncated) string - it does not fail. -/
theorem c4_truncated_counterexample :
    BinaryReader.read_cstring ⟨false, ⟨[65, 66], 0⟩⟩ =
      .ok ("AB", ⟨false, ⟨[65, 66], 2⟩⟩) ∧ ∀ b ∈ [65, 66], b ≠ 0 :=
  ⟨rfl, by decide⟩

/-- Claim C4 as amended: on a stream whose remaining bytes are all nonzero
(and ASCII, so that the final `decode` step succeeds), `read_cstring`
succeeds with the accumulated remaining bytes as a truncated string,
consuming them all; exhaustion before a terminator is not an error. -/
theorem c4_truncated_ok (r : BinaryReader)
    (h0 : ∀ b ∈ r.file.data.drop r.file.pos, b ≠ 0)
    (h1 : ∀ b ∈ r.file.data.drop r.file.pos, b < 128) :
    BinaryReader.read_cstring r =
      .ok (⟨(r.file.data.drop r.file.pos).map Char.ofNat⟩,
        { r with file := { r.file with
            pos := r.file.pos + (r.file.data.drop r.file.pos).length } }) := by
  unfold BinaryReader.read_cstring
  rw [cstring_go_no_zero _ _ h0, List.nil_append]
  have hall : (r.file.data.drop r.file.pos).all (fun x => decide (x < 128)) = true := by
    rw [List.all_eq_true]
    intro x hx
    exact decide_eq_true (h1 x (by simpa using hx))
  simp [asciiDecode, hall]

/-- Witness for the amended C4 at a concrete terminator-free stream. -/
theorem c4_truncated_ok_witness :
    BinaryReader.read_cstring ⟨false, ⟨[72, 73], 0⟩⟩ =
      .ok ("HI", ⟨false, ⟨[72, 73], 2⟩⟩) :=
  c4_truncated_ok ⟨false, ⟨[72, 73], 0⟩⟩ (by decide) (by decide)

/-! ### C5: fixed-width reads on short streams -/

/-- Claim C5 (refuted): the 8-bit read on an exhausted stream does not
fail with a short-read error - it returns `None` (a successful return). -/
theorem c5_int8_counterexample :
    BinaryReader.read_int8 ⟨false, ⟨[], 0⟩⟩ = (none, ⟨false, ⟨[], 0⟩⟩) := rfl

/-- Claim C5 as amended: every 16-, 32- and 64-bit read (signed or
unsigned) issued with fewer remaining bytes than its width fails with the
short-read error; the 8-bit read instead returns `None` when no byte
remains. -/
theorem c5_short_reads (r2 r4 r8 : BinaryReader)
    (h2 : r2.file.data.length - r2.file.pos < 2)
    (h4 : r4.file.data.length - r4.file.pos < 4)
    (h8 : r8.file.data.length - r8.file.pos < 8)
    (h1 : r2.file.data.length ≤ r2.file.pos) :
    r2.read_int16 = .error .shortRead ∧ r2.read_uint16 = .error .shortRead ∧
    r4.read_int32 = .error .shortRead ∧ r4.read_uint32 = .error .shortRead ∧
    r8.read_int64 = .error .shortRead ∧ r8.read_uint64 = .error .shortRead ∧
    (r2.read_int8).1 = none := by
  have e2 := read_struct_short r2 2 h2
  have e4 := read_struct_short r4 4 h4
  have e8 := read_struct_short r8 8 h8
  have hi8 : (r2.read_int8).1 = none := by
    unfold BinaryReader.read_int8 BinaryReader.read BStream.read
    have : (r2.file.data.drop r2.file.pos).take 1 = [] := by
      rw [List.take_eq_nil_iff]
      right
      rw [List.drop_eq_nil_iff]
      exact h1
    simp [this]
  refine ⟨?_, ?_, ?_, ?_, ?_, ?_, hi8⟩ <;>
    simp [BinaryReader.read_int16, BinaryReader.read_uint16,
      BinaryReader.read_int32, BinaryReader.read_uint32,
      BinaryReader.read_int64, BinaryReader.read_uint64,
      BinaryReader.read_int, e2, e4, e8]

/-- Witness for the amended C5 on the empty stream. -/
theorem c5_short_reads_witness :
    BinaryReader.read_int16 ⟨false, ⟨[], 0⟩⟩ = .error .shortRead ∧
    BinaryReader.read_uint16 ⟨false, ⟨[], 0⟩⟩ = .error .shortRead ∧
    BinaryReader.read_int32 ⟨false, ⟨[], 0⟩⟩ = .error .shortRead ∧
    BinaryReader.read_uint32 ⟨false, ⟨[], 0⟩⟩ = .error .shortRead ∧
    BinaryReader.read_int64 ⟨false, ⟨[], 0⟩⟩ = .error .shortRead ∧
    BinaryReader.read_uint64 ⟨false, ⟨[], 0⟩⟩ = .error .shortRead ∧
    (BinaryReader.read_int8 ⟨false, ⟨[], 0⟩⟩).1 = none :=
  c5_short_reads ⟨false, ⟨[], 0⟩⟩ ⟨false, ⟨[], 0⟩⟩ ⟨false, ⟨[], 0⟩⟩
    (by decide) (by decide) (by decide) (by decide)

/-! ### C6: duplicate identifiers -/

/-- A version-15 stream whose type table holds two entries with class
identifier 5 (header, endianness+reserved, empty signature, attributes,
embedded flag 0, count 2, then twice: class id 5 and a 16-byte hash). -/
def c6_class_dup_input : List Nat :=
  [0, 0, 0, 0, 0, 0, 0, 100, 0, 0, 0, 15, 0, 0, 0, 0,
   0, 0, 0, 0,
   0,
   7, 0, 0, 0,
   0,
   2, 0, 0, 0,
   5, 0, 0, 0,
   0, 0, 0, 0, 0, 0, 0, 0, 0, 0, 0, 0, 0, 0, 0, 0,
   5, 0, 0, 0,
   0, 0, 0, 0, 0, 0, 0, 0, 0, 0, 0, 0, 0, 0, 0, 0]

/-- A version-15 stream with an empty type table and an object index whose
two entries share path identifier 9 (alignment padding included). -/
def c6_path_dup_input : List Nat :=
  [0, 0, 0, 0, 0, 0, 0, 200, 0, 0, 0, 15, 0, 0, 0, 0,
   0, 0, 0, 0,
   0,
   7, 0, 0, 0,
   0,
   0, 0, 0, 0,
   2, 0, 0, 0,
   0, 0,
   9, 0, 0, 0, 0, 0, 0, 0,
   0, 0, 0, 0, 0, 0, 0, 0, 0, 0, 0, 0, 0, 0,
   0, 0, 0,
   0, 0, 0,
   9, 0, 0, 0, 0, 0, 0, 0,
   0, 0, 0, 0, 0, 0, 0, 0, 0, 0, 0, 0, 0, 0,
   0, 0, 0]

/-- Claim C6 (code bug on the class-id half): a duplicate class identifier
does abort the decode, but with `NameError` - the message
`"Duplicate class ID %d" % path_id` references `path_id`, which is not a
name bound inside `read_types` - so no duplicate-key error naming the
identifier is raised. A duplicate path identifier, by contrast, raises the
intended duplicate-key error naming the repeated identifier 9. -/
theorem c6_duplicate_errors :
    SerializedFileReader.read ⟨c6_class_dup_input, 0⟩ =
      .error (.nameError "path_id") ∧
    SerializedFileReader.read ⟨c6_path_dup_input, 0⟩ =
      .error (.duplicateKey 9) :=
  ⟨rfl, rfl⟩

/-! ### C1: unsupported version -/

/-- A 16-byte header whose version field decodes to 14 but whose
`dataOffset` (1) exceeds its `fileSize` (0). -/
def c1_bad_header_input : List Nat :=
  [0, 0, 0, 0, 0, 0, 0, 0, 0, 0, 0, 14, 0, 0, 0, 1]

/-- Claim C1 (refuted at the margin): this input's version field is 14,
not 15, yet the decode fails with the invalid-dataOffset error - the
offset validity checks run before the version check, so not every
`version ≠ 15` input fails with the unsupported-version error. -/
theorem c1_version_counterexample :
    SerializedFileReader.read ⟨c1_bad_header_input, 0⟩ =
      .error (.invalidDataOffset 1) ∧
    decodeBytes true true ((c1_bad_header_input.drop 8).take 4) = 14 ∧
    (14 : Int) ≠ 15 :=
  ⟨rfl, rfl, by decide⟩

/-- Claim C1 as amended: whenever the four big-endian header integers can
be read and pass the `dataOffset ≤ fileSize` and `metadataSize ≤ fileSize`
checks, a version field other than 15 makes `read_header` itself - and
hence the whole decode - fail with the unsupported-version error naming
that version, so no byte of the type table is ever consumed. -/
theorem c1_unsupported_version (file : BStream) (m f v d : Int)
    (r1 r2 r3 r4 : BinaryReader)
    (h1 : BinaryReader.read_int32 ⟨true, file⟩ = .ok (m, r1))
    (h2 : r1.read_int32 = .ok (f, r2))
    (h3 : r2.read_int32 = .ok (v, r3))
    (h4 : r3.read_int32 = .ok (d, r4))
    (hd : d ≤ f) (hm : m ≤ f) (hv : v ≠ 15) :
    SerializedFileReader.read_header (BinaryReader.init file) =
      .error (.unsupportedVersion v) ∧
    SerializedFileReader.read file = .error (.unsupportedVersion v) := by
  have hh : SerializedFileReader.read_header (BinaryReader.init file) =
      .error (.unsupportedVersion v) := by
    unfold SerializedFileReader.read_header BinaryReader.init
    simp only [h1, except_bind_ok, h2, h3, h4]
    rw [if_neg (by omega : ¬ f < d), if_neg (by omega : ¬ f < m)]
    by_cases h9 : (9 : Int) ≤ v
    · rw [if_pos h9]
      rcases he : r4.read_int8 with ⟨e, r5⟩
      rcases hr3 : r5.read 3 with ⟨junk, r6⟩
      simp only [he, hr3, except_pure_bind, except_bind_ok]
      simp [hv]
    · rw [if_neg h9]
      simp only [except_pure_bind]
      simp [hv]
  refine ⟨hh, ?_⟩
  unfold SerializedFileReader.read
  simp only [hh, except_bind_error]

/-- Witness for the amended C1: a well-formed header with version 14. -/
def c1_witness_input : List Nat :=
  [0, 0, 0, 0, 0, 0, 0, 0, 0, 0, 0, 14, 0, 0, 0, 0]

/-- The amended C1 applied at `c1_witness_input`. -/
theorem c1_unsupported_version_witness :
    SerializedFileReader.read_header (BinaryReader.init ⟨c1_witness_input, 0⟩) =
      .error (.unsupportedVersion 14) ∧
    SerializedFileReader.read ⟨c1_witness_input, 0⟩ =
      .error (.unsupportedVersion 14) :=
  c1_unsupported_version ⟨c1_witness_input, 0⟩ 0 0 14 0
    ⟨true, ⟨c1_witness_input, 4⟩⟩ ⟨true, ⟨c1_witness_input, 8⟩⟩
    ⟨true, ⟨c1_witness_input, 12⟩⟩ ⟨true, ⟨c1_witness_input, 16⟩⟩
    rfl rfl rfl rfl (by decide) (by decide) (by decide)

/-! ### C7: one read touches at most two chunks -/

/-- Characterization of one `ChunkedFileIO.read` call: read the active
chunk; exactly when that yields no bytes and the active chunk is not the
last, advance the cursor once and return whatever the next chunk yields;
chunks other than the active one and its successor are untouched. -/
theorem read_two_chunk_spec (s : ChunkedFile) (size : Int) (c : Chunk)
    (hc : s.chunks[s.index]? = some c) :
    ((c.read size).1 ≠ [] →
      s.read size = .ok ((c.read size).1,
        { s with chunks := s.chunks.set s.index (c.read size).2 })) ∧
    ((c.read size).1 = [] → s.chunks.length ≤ s.index + 1 →
      s.read size = .ok ([],
        { s with chunks := s.chunks.set s.index (c.read size).2 })) ∧
    ((c.read size).1 = [] → s.index + 1 < s.chunks.length →
      ∀ c2, s.chunks[s.index + 1]? = some c2 →
        s.read size = .ok ((c2.read size).1,
          { s with
              chunks := (s.chunks.set s.index (c.read size).2).set
                (s.index + 1) (c2.read size).2,
              index := s.index + 1 })) ∧
    (∀ out s', s.read size = .ok (out, s') →
      ∀ j, j ≠ s.index → j ≠ s.index + 1 → s'.chunks[j]? = s.chunks[j]?) := by
  have hch : s.chunk = .ok c := by
    unfold ChunkedFile.chunk
    rw [hc]
  rcases hr : c.read size with ⟨data, c1⟩
  have hnext_none : s.chunks.length ≤ s.index + 1 →
      ({ s with chunks := s.chunks.set s.index c1 } : ChunkedFile).chunk_next =
        .ok none := by
    intro hlast
    unfold ChunkedFile.chunk_next
    rw [if_pos (by simpa [List.length_set] using hlast)]
  have hnext_some : s.index + 1 < s.chunks.length →
      ∀ c2, s.chunks[s.index + 1]? = some c2 →
      ({ s with chunks := s.chunks.set s.index c1 } : ChunkedFile).chunk_next =
        .ok (some (⟨s.chunks.set s.index c1, s.index + 1⟩, c2)) := by
    intro hlt c2 hc2
    have hchunk2 : (⟨s.chunks.set s.index c1, s.index + 1⟩ : ChunkedFile).chunk =
        .ok c2 := by
      unfold ChunkedFile.chunk
      rw [show ((s.chunks.set s.index c1)[s.index + 1]?) = some c2 from by
        rw [List.getElem?_set_ne (by omega)]
        exact hc2]
    unfold ChunkedFile.chunk_next
    rw [if_neg (by simp only [List.length_set]; omega)]
    simp only [hchunk2]
  refine ⟨?_, ?_, ?_, ?_⟩
  · intro hne
    replace hne : data ≠ [] := by simpa using hne
    unfold ChunkedFile.read
    simp only [hch, except_bind_ok, hr]
    rw [if_neg hne]
    rfl
  · intro h0 hlast
    replace h0 : data = [] := by simpa using h0
    unfold ChunkedFile.read
    simp only [hch, except_bind_ok, hr]
    rw [if_pos h0, h0]
    simp only [hnext_none hlast, except_bind_ok]
    rfl
  · intro h0 hlt c2 hc2
    replace h0 : data = [] := by simpa using h0
    unfold ChunkedFile.read
    simp only [hch, except_bind_ok, hr]
    rw [if_pos h0]
    simp only [hnext_some hlt c2 hc2, except_bind_ok]
    rcases hr2 : c2.read size with ⟨data2, c2p⟩
    rfl
  · intro out s' hread j hj1 hj2
    unfold ChunkedFile.read at hread
    simp only [hch, except_bind_ok, hr] at hread
    by_cases h0 : data = []
    · rw [if_pos h0] at hread
      by_cases hlast : s.chunks.length ≤ s.index + 1
      · simp only [hnext_none hlast, except_bind_ok] at hread
        have hpair := Except.ok.inj hread
        have hs' : s' = { s with chunks := s.chunks.set s.index c1 } :=
          (Prod.mk.inj hpair).2.symm
        rw [hs']
        exact List.getElem?_set_ne (Ne.symm hj1)
      · push_neg at hlast
        obtain ⟨c2, hc2⟩ : ∃ c2, s.chunks[s.index + 1]? = some c2 :=
          ⟨s.chunks[s.index + 1], List.getElem?_eq_getElem hlast⟩
        simp only [hnext_some hlast c2 hc2, except_bind_ok] at hread
        rcases hr2 : c2.read size with ⟨data2, c2p⟩
        rw [hr2] at hread
        have hpair := Except.ok.inj hread
        have hs' : s' = { s with
            chunks := (s.chunks.set s.index c1).set (s.index + 1) c2p,
            index := s.index + 1 } := (Prod.mk.inj hpair).2.symm
        rw [hs']
        show ((s.chunks.set s.index c1).set (s.index + 1) c2p)[j]? = s.chunks[j]?
        rw [List.getElem?_set_ne (Ne.symm hj2), List.getElem?_set_ne (Ne.symm hj1)]
    · rw [if_neg h0] at hread
      have hpair := Except.ok.inj hread
      have hs' : s' = { s with chunks := s.chunks.set s.index c1 } :=
        (Prod.mk.inj hpair).2.symm
      rw [hs']
      exact List.getElem?_set_ne (Ne.symm hj1)

/-- Claim C7: a single `read` call first reads the active chunk; exactly
when that yields no bytes and the active chunk is not the last, it
advances the cursor once and retries exactly once, returning whatever that
next chunk yields (possibly nothing); chunks other than the active one and
its successor are never touched, so one call touches at most two chunks. -/
theorem c7_read_at_most_two (s : ChunkedFile) (size : Int) (c : Chunk)
    (hc : s.chunks[s.index]? = some c) :
    ((c.read size).1 ≠ [] →
      s.read size = .ok ((c.read size).1,
        { s with chunks := s.chunks.set s.index (c.read size).2 })) ∧
    ((c.read size).1 = [] → s.chunks.length ≤ s.index + 1 →
      s.read size = .ok ([],
        { s with chunks := s.chunks.set s.index (c.read size).2 })) ∧
    ((c.read size).1 = [] → s.index + 1 < s.chunks.length →
      ∀ c2, s.chunks[s.index + 1]? = some c2 →
        s.read size = .ok ((c2.read size).1,
          { s with
              chunks := (s.chunks.set s.index (c.read size).2).set
                (s.index + 1) (c2.read size).2,
              index := s.index + 1 })) ∧
    (∀ out s', s.read size = .ok (out, s') →
      ∀ j, j ≠ s.index → j ≠ s.index + 1 → s'.chunks[j]? = s.chunks[j]?) :=
  read_two_chunk_spec s size c hc

/-- Witness for C7: a two-chunk stream whose first (active) chunk is
exhausted; one `read` advances to the second chunk and returns its byte. -/
theorem c7_read_at_most_two_witness :
    ChunkedFile.read ⟨[⟨[5], 0, 1⟩, ⟨[7], 1, 0⟩], 0⟩ (-1) =
      .ok ([7], ⟨[⟨[5], 0, 1⟩, ⟨[7], 1, 1⟩], 1⟩) := by
  have h := (c7_read_at_most_two ⟨[⟨[5], 0, 1⟩, ⟨[7], 1, 0⟩], 0⟩ (-1)
    ⟨[5], 0, 1⟩ rfl).2.2.1
  exact h rfl (by decide) ⟨[7], 1, 0⟩ rfl

/-! ### Chunk layout machinery for C2 and C8 -/

/-- The chunk list `__init__` builds, written non-accumulatively: sources
laid end to end starting at `pos`, empty sources skipped. -/
def layout (pos : Nat) : List (List Nat) → List Chunk
  | [] => []
  | src :: rest =>
    if src.length = 0 then layout pos rest
    else ⟨src, pos, 0⟩ :: layout (pos + src.length) rest

/-- The sum of the lengths of the first `i` sources. -/
def sumBefore : List (List Nat) → Nat → Nat
  | _, 0 => 0
  | [], _ + 1 => 0
  | src :: rest, i + 1 => src.length + sumBefore rest i

/-- The total length of all sources. -/
def totalLen : List (List Nat) → Nat
  | [] => 0
  | src :: rest => src.length + totalLen rest

theorem initChunks_eq_append :
    ∀ (sources : List (List Nat)) (acc : List Chunk) (pos : Nat),
      ChunkedFile.initChunks acc pos sources = acc ++ layout pos sources
  | [], acc, pos => by simp [ChunkedFile.initChunks, layout]
  | src :: rest, acc, pos => by
    by_cases hz : src.length = 0
    · simp [ChunkedFile.initChunks, layout, Chunk.size, hz,
        initChunks_eq_append rest acc pos]
    · simp [ChunkedFile.initChunks, layout, Chunk.size, hz,
        initChunks_eq_append rest (acc ++ [⟨src, pos, 0⟩]) (pos + src.length)]

/-- Models `ChunkedFileIO.__init__` in a fresh interpreter yields the layout. -/
theorem init_eq_layout (sources : List (List Nat)) :
    ChunkedFile.init sources = ⟨layout 0 sources, 0⟩ := by
  unfold ChunkedFile.init
  rw [initChunks_eq_append, List.nil_append]

theorem layout_length :
    ∀ (ss : List (List Nat)) (pos : Nat), (∀ s ∈ ss, s ≠ []) →
      (layout pos ss).length = ss.length
  | [], _, _ => rfl
  | src :: rest, pos, h => by
    have hs : src.length ≠ 0 := by
      have := h src (by simp)
      simpa [List.length_eq_zero] using this
    simp [layout, hs, layout_length rest (pos + src.length)
      (fun s hsm => h s (by simp [hsm]))]

theorem sumBefore_succ_of_lt :
    ∀ (ss : List (List Nat)) (j : Nat), (hj : j < ss.length) →
      sumBefore ss (j + 1) = sumBefore ss j + (ss[j]).length
  | src :: rest, 0, _ => by simp [sumBefore]
  | src :: rest, j + 1, hj => by
    have ih := sumBefore_succ_of_lt rest j (by simpa using hj)
    simp [sumBefore, ih]
    omega

theorem sumBefore_mono :
    ∀ (ss : List (List Nat)) (i j : Nat), i ≤ j →
      sumBefore ss i ≤ sumBefore ss j
  | [], 0, j, _ => by cases j <;> simp [sumBefore]
  | _ :: _, 0, _, _ => Nat.zero_le _
  | [], _ + 1, _, _ => by simp [sumBefore]
  | _ :: _, _ + 1, 0, h => absurd h (by omega)
  | src :: rest, i + 1, j + 1, h => by
    have ih := sumBefore_mono rest i j (by omega)
    simp only [sumBefore]
    omega

theorem sumBefore_le_total :
    ∀ (ss : List (List Nat)) (j : Nat), sumBefore ss j ≤ totalLen ss
  | [], 0 => le_refl _
  | [], _ + 1 => le_refl _
  | src :: rest, 0 => Nat.zero_le _
  | src :: rest, j + 1 => by
    have ih := sumBefore_le_total rest j
    simp [sumBefore, totalLen]
    omega

theorem sumBefore_length :
    ∀ (ss : List (List Nat)), sumBefore ss ss.length = totalLen ss
  | [] => rfl
  | src :: rest => by
    simp [sumBefore, totalLen, sumBefore_length rest]

theorem layout_getElem? :
    ∀ (ss : List (List Nat)) (pos : Nat), (∀ s ∈ ss, s ≠ []) →
      ∀ (j : Nat), (hj : j < ss.length) →
      (layout pos ss)[j]? = some ⟨ss[j], pos + sumBefore ss j, 0⟩
  | src :: rest, pos, h, 0, hj => by
    have hs : src.length ≠ 0 := by
      have := h src (by simp)
      simpa [List.length_eq_zero] using this
    simp [layout, hs, sumBefore]
  | src :: rest, pos, h, j + 1, hj => by
    have hs : src.length ≠ 0 := by
      have := h src (by simp)
      simpa [List.length_eq_zero] using this
    have ih := layout_getElem? rest (pos + src.length)
      (fun s hsm => h s (by simp [hsm])) j (by simpa using hj)
    simp [layout, hs, sumBefore, ih]
    omega

/-- The half-open source intervals partition the address space: at most
one source interval contains a given offset. -/
theorem interval_unique (ss : List (List Nat)) (k i1 i2 : Nat)
    (h1 : i1 < ss.length) (h2 : i2 < ss.length)
    (hlo1 : sumBefore ss i1 ≤ k)
    (hhi1 : k < sumBefore ss i1 + (ss[i1]).length)
    (hlo2 : sumBefore ss i2 ≤ k)
    (hhi2 : k < sumBefore ss i2 + (ss[i2]).length) : i1 = i2 := by
  rcases Nat.lt_trichotomy i1 i2 with hlt | heq | hgt
  · exfalso
    have hs : sumBefore ss (i1 + 1) ≤ sumBefore ss i2 := sumBefore_mono ss _ _ hlt
    rw [sumBefore_succ_of_lt ss i1 h1] at hs
    omega
  · exact heq
  · exfalso
    have hs : sumBefore ss (i2 + 1) ≤ sumBefore ss i1 := sumBefore_mono ss _ _ hgt
    rw [sumBefore_succ_of_lt ss i2 h2] at hs
    omega

/-- When the target is at most the first chunk's `end`, the `chunk_find`
loop stops at the first chunk (it also stops there, vacuously, when the
first chunk is the only one). -/
theorem chunk_find_go_head (k : Int) (c : Chunk) (rest : List Chunk)
    (i : Nat) (hk : k ≤ (c.endPos : Int)) :
    ChunkedFile.chunk_find_go k (c :: rest) i = some (i, c) := by
  cases rest with
  | nil => rfl
  | cons c2 t =>
    unfold ChunkedFile.chunk_find_go
    rw [if_pos hk]

/-- The `chunk_find` loop over a laid-out list of nonempty sources, when
the target lies inside the covered range, returns a chunk whose closed
range `[start, end]` contains the target. -/
theorem chunk_find_go_found :
    ∀ (ss : List (List Nat)) (pos0 i0 : Nat) (k : Int),
      (∀ s ∈ ss, s ≠ []) → ss ≠ [] → (pos0 : Int) ≤ k →
      k ≤ (pos0 : Int) + (totalLen ss : Int) →
      ∃ j, ∃ hj : j < ss.length,
        ChunkedFile.chunk_find_go k (layout pos0 ss) i0 =
          some (i0 + j, ⟨ss[j], pos0 + sumBefore ss j, 0⟩) ∧
        ((pos0 : Int) + (sumBefore ss j : Int)) ≤ k ∧
        k ≤ (pos0 : Int) + (sumBefore ss j : Int) + ((ss[j]).length : Int)
  | [], _, _, _, _, hne, _, _ => absurd rfl hne
  | src :: rest, pos0, i0, k, hall, _, hlo, hhi => by
    have hs : src.length ≠ 0 := by
      have := hall src (by simp)
      simpa [List.length_eq_zero] using this
    have hlay : layout pos0 (src :: rest) =
        ⟨src, pos0, 0⟩ :: layout (pos0 + src.length) rest := by
      simp [layout, hs]
    by_cases hk1 : k ≤ ((pos0 : Int) + (src.length : Int))
    · refine ⟨0, by simp, ?_, ?_, ?_⟩
      · rw [hlay, chunk_find_go_head k _ _ i0
          (by simp only [Chunk.endPos, Chunk.size]; push_cast; omega)]
        simp [sumBefore]
      · simp [sumBefore]
        omega
      · simp [sumBefore]
        omega
    · push_neg at hk1
      have hrestne : rest ≠ [] := by
        rintro rfl
        simp [totalLen] at hhi
        omega
      obtain ⟨j, hj, heq, hjlo, hjhi⟩ :=
        chunk_find_go_found rest (pos0 + src.length) (i0 + 1) k
          (fun s hsm => hall s (by simp [hsm])) hrestne
          (by omega)
          (by simp only [totalLen] at hhi; push_cast at hhi ⊢; omega)
      refine ⟨j + 1, by simpa using hj, ?_, ?_, ?_⟩
      · rw [hlay]
        rcases hrl : layout (pos0 + src.length) rest with _ | ⟨c2, t⟩
        · rw [hrl] at heq
          simp [ChunkedFile.chunk_find_go] at heq
        · unfold ChunkedFile.chunk_find_go
          rw [if_neg (by
            simp only [Chunk.endPos, Chunk.size]
            push_cast
            omega)]
          rw [← hrl, heq]
          have h1 : i0 + (j + 1) = i0 + 1 + j := by omega
          have h2 : pos0 + sumBefore (src :: rest) (j + 1) =
              pos0 + src.length + sumBefore rest j := by
            simp only [sumBefore]
            omega
          simp only [h1, h2, List.getElem_cons_succ]
      · simp only [sumBefore]
        push_cast at hjlo ⊢
        omega
      · simp only [sumBefore, List.getElem_cons_succ]
        push_cast at hjhi ⊢
        omega

/-- The `chunk_find` loop when the target is beyond the covered range:
the loop runs off the end and leaves the last chunk selected, whose `end`
is short of the target. -/
theorem chunk_find_go_overflow :
    ∀ (ss : List (List Nat)) (pos0 i0 : Nat) (k : Int),
      (∀ s ∈ ss, s ≠ []) → ss ≠ [] →
      ((pos0 : Int) + (totalLen ss : Int)) < k →
      ∃ j, ∃ hj : j < ss.length,
        ChunkedFile.chunk_find_go k (layout pos0 ss) i0 =
          some (i0 + j, ⟨ss[j], pos0 + sumBefore ss j, 0⟩) ∧
        ((pos0 : Int) + (sumBefore ss j : Int) + ((ss[j]).length : Int)) < k
  | [], _, _, _, _, hne, _ => absurd rfl hne
  | src :: rest, pos0, i0, k, hall, _, hov => by
    have hs : src.length ≠ 0 := by
      have := hall src (by simp)
      simpa [List.length_eq_zero] using this
    have hlay : layout pos0 (src :: rest) =
        ⟨src, pos0, 0⟩ :: layout (pos0 + src.length) rest := by
      simp [layout, hs]
    cases rest with
    | nil =>
      refine ⟨0, by simp, ?_, ?_⟩
      · rw [hlay]
        simp [ChunkedFile.chunk_find_go, layout, sumBefore]
      · simp only [totalLen] at hov
        simp only [sumBefore, List.getElem_cons_zero]
        push_cast at hov ⊢
        omega
    | cons r2 t2 =>
      have hrestne : (r2 :: t2) ≠ [] := by simp
      obtain ⟨j, hj, heq, hjhi⟩ :=
        chunk_find_go_overflow (r2 :: t2) (pos0 + src.length) (i0 + 1) k
          (fun s hsm => hall s (by simp [hsm])) hrestne
          (by simp only [totalLen] at hov ⊢; push_cast at hov ⊢; omega)
      refine ⟨j + 1, by simpa using hj, ?_, ?_⟩
      · rw [hlay]
        rcases hrl : layout (pos0 + src.length) (r2 :: t2) with _ | ⟨c2, t⟩
        · exfalso
          have hr2 : r2.length ≠ 0 := by
            have := hall r2 (by simp)
            simpa [List.length_eq_zero] using this
          simp [layout, hr2] at hrl
        · unfold ChunkedFile.chunk_find_go
          rw [if_neg (by
            simp only [Chunk.endPos, Chunk.size, totalLen] at hov ⊢
            push_cast at hov ⊢
            omega)]
          rw [← hrl, heq]
          have h1 : i0 + (j + 1) = i0 + 1 + j := by omega
          have h2 : pos0 + sumBefore (src :: r2 :: t2) (j + 1) =
              pos0 + src.length + sumBefore (r2 :: t2) j := by
            simp only [sumBefore]
            omega
          simp only [h1, h2, List.getElem_cons_succ]
      · simp only [sumBefore, List.getElem_cons_succ]
        push_cast at hjhi ⊢
        omega

/-- Seeking a freshly constructed stream to an absolute offset in
`[0, totalLen]` succeeds: it selects a chunk whose closed logical range
contains the offset and positions that chunk's handle on the offset. -/
theorem seek_fresh (sources : List (List Nat)) (hne : sources ≠ [])
    (hall : ∀ s ∈ sources, s ≠ []) (k : Nat) (hk : k ≤ totalLen sources) :
    ∃ j, ∃ hj : j < sources.length,
      ChunkedFile.seek (ChunkedFile.init sources) (k : Int) 0 =
        .ok ⟨(layout 0 sources).set j
          ⟨sources[j], sumBefore sources j, k - sumBefore sources j⟩, j⟩ ∧
      sumBefore sources j ≤ k ∧
      k ≤ sumBefore sources j + (sources[j]).length := by
  obtain ⟨s0, rest, rfl⟩ : ∃ s0 rest, sources = s0 :: rest := by
    cases sources with
    | nil => exact absurd rfl hne
    | cons a b => exact ⟨a, b, rfl⟩
  have hs0 : s0.length ≠ 0 := by
    have := hall s0 (by simp)
    simpa [List.length_eq_zero] using this
  have hlay : layout 0 (s0 :: rest) = ⟨s0, 0, 0⟩ :: layout s0.length rest := by
    simp [layout, hs0]
  have hchunk : (⟨layout 0 (s0 :: rest), 0⟩ : ChunkedFile).chunk =
      .ok ⟨s0, 0, 0⟩ := by
    unfold ChunkedFile.chunk
    rw [hlay]
    simp
  rw [init_eq_layout]
  by_cases hk1 : k ≤ s0.length
  · refine ⟨0, by simp, ?_, by simp [sumBefore], by simp [sumBefore]; omega⟩
    have hcseek : Chunk.seek ⟨s0, 0, 0⟩ (k : Int) = .ok ⟨s0, 0, k⟩ := by
      unfold Chunk.seek
      rw [if_neg (by simp only [Chunk.size]; push_cast; omega)]
      simp
    unfold ChunkedFile.seek
    simp only [hchunk, except_bind_ok]
    simp only [show ¬ ((0 : Nat) = 1) from by decide, if_false,
      show ¬ ((0 : Nat) = 2) from by decide,
      show ¬ ((0 : Nat) ≠ 0) from by decide, except_pure_bind]
    split
    · next hcond =>
      exfalso
      simp only [Chunk.endPos, Chunk.size] at hcond
      push_cast at hcond
      omega
    · next hcond =>
      simp only [except_pure_bind, hcseek, except_bind_ok]
      rfl
  · push_neg at hk1
    obtain ⟨j, hj, heq, hjlo, hjhi⟩ :=
      chunk_find_go_found (s0 :: rest) 0 0 (k : Int) hall (by simp)
        (by omega) (by push_cast; omega)
    have hfind : (⟨layout 0 (s0 :: rest), 0⟩ : ChunkedFile).chunk_find (k : Int) =
        .ok (⟨layout 0 (s0 :: rest), j⟩,
          ⟨(s0 :: rest)[j], sumBefore (s0 :: rest) j, 0⟩) := by
      unfold ChunkedFile.chunk_find
      have heq' : ChunkedFile.chunk_find_go (k : Int) (layout 0 (s0 :: rest)) 0 =
          some (j, ⟨(s0 :: rest)[j], sumBefore (s0 :: rest) j, 0⟩) := by
        rw [heq]
        simp
      rw [heq']
    have htn : (((k : Nat) : Int) -
        ((sumBefore (s0 :: rest) j : Nat) : Int)).toNat =
        k - sumBefore (s0 :: rest) j := by omega
    have hcseek : Chunk.seek ⟨(s0 :: rest)[j], sumBefore (s0 :: rest) j, 0⟩
        (k : Int) = .ok ⟨(s0 :: rest)[j], sumBefore (s0 :: rest) j,
          k - sumBefore (s0 :: rest) j⟩ := by
      unfold Chunk.seek
      rw [if_neg (by
        simp only [Chunk.size]
        push_cast at hjlo hjhi ⊢
        omega)]
      rw [show ((k : Nat) : Int) - ((⟨(s0 :: rest)[j],
        sumBefore (s0 :: rest) j, 0⟩ : Chunk).start : Int) =
        ((k : Nat) : Int) - ((sumBefore (s0 :: rest) j : Nat) : Int) from rfl]
      rw [htn]
    refine ⟨j, hj, ?_, by push_cast at hjlo; omega, by push_cast at hjhi; omega⟩
    unfold ChunkedFile.seek
    simp only [hchunk, except_bind_ok]
    simp only [show ¬ ((0 : Nat) = 1) from by decide, if_false,
      show ¬ ((0 : Nat) = 2) from by decide,
      show ¬ ((0 : Nat) ≠ 0) from by decide, except_pure_bind]
    split
    · next hcond =>
      simp only [hfind, except_bind_ok, hcseek]
      rfl
    · next hcond =>
      exfalso
      simp only [Chunk.endPos, Chunk.size, not_or, not_lt] at hcond
      push_cast at hcond
      omega

/-! ### C8: seek bounds -/

/-- Claim C8: on a freshly built stream over nonempty sources, an absolute
seek to any offset in `[0, totalLen]` succeeds, while a seek to a negative
offset or beyond `totalLen` fails with the out-of-range error raised by
the chunk the scan selects. -/
theorem c8_seek_bounds (sources : List (List Nat)) (hne : sources ≠ [])
    (hall : ∀ s ∈ sources, s ≠ []) (k : Int) :
    (0 ≤ k → k ≤ (totalLen sources : Int) →
      ∃ S1, ChunkedFile.seek (ChunkedFile.init sources) k 0 = .ok S1) ∧
    (k < 0 ∨ (totalLen sources : Int) < k →
      ChunkedFile.seek (ChunkedFile.init sources) k 0 =
        .error .outOfRange) := by
  constructor
  · intro h0 hT
    have hk : k = ((k.toNat : Nat) : Int) := (Int.toNat_of_nonneg h0).symm
    have hkn : k.toNat ≤ totalLen sources := by omega
    obtain ⟨j, hj, heqn, _, _⟩ := seek_fresh sources hne hall k.toNat hkn
    rw [hk]
    exact ⟨_, heqn⟩
  · intro hout
    obtain ⟨s0, rest, rfl⟩ : ∃ s0 rest, sources = s0 :: rest := by
      cases sources with
      | nil => exact absurd rfl hne
      | cons a b => exact ⟨a, b, rfl⟩
    have hs0 : s0.length ≠ 0 := by
      have := hall s0 (by simp)
      simpa [List.length_eq_zero] using this
    have hlay : layout 0 (s0 :: rest) =
        ⟨s0, 0, 0⟩ :: layout s0.length rest := by
      simp [layout, hs0]
    have hchunk : (⟨layout 0 (s0 :: rest), 0⟩ : ChunkedFile).chunk =
        .ok ⟨s0, 0, 0⟩ := by
      unfold ChunkedFile.chunk
      rw [hlay]
      simp
    rw [init_eq_layout]
    unfold ChunkedFile.seek
    simp only [hchunk, except_bind_ok]
    simp only [show ¬ ((0 : Nat) = 1) from by decide, if_false,
      show ¬ ((0 : Nat) = 2) from by decide,
      show ¬ ((0 : Nat) ≠ 0) from by decide, except_pure_bind]
    rcases hout with hneg | hover
    · split
      · next hcond =>
        have hgo : ChunkedFile.chunk_find_go k (layout 0 (s0 :: rest)) 0 =
            some (0, ⟨s0, 0, 0⟩) := by
          rw [hlay]
          exact chunk_find_go_head k _ _ 0
            (by simp only [Chunk.endPos, Chunk.size]; omega)
        have hfind : (⟨layout 0 (s0 :: rest), 0⟩ : ChunkedFile).chunk_find k =
            .ok (⟨layout 0 (s0 :: rest), 0⟩, ⟨s0, 0, 0⟩) := by
          unfold ChunkedFile.chunk_find
          rw [hgo]
        simp only [hfind, except_bind_ok]
        have hcerr : Chunk.seek ⟨s0, 0, 0⟩ k = .error .outOfRange := by
          unfold Chunk.seek
          rw [if_pos (Or.inl (by push_cast; omega))]
        simp only [hcerr, except_bind_error]
      · next hcond =>
        exfalso
        simp only [Chunk.endPos, Chunk.size, not_or, not_lt] at hcond
        push_cast at hcond
        omega
    · split
      · next hcond =>
        obtain ⟨j, hj, heq, hend⟩ :=
          chunk_find_go_overflow (s0 :: rest) 0 0 k hall (by simp)
            (by push_cast at hover ⊢; omega)
        have heq' : ChunkedFile.chunk_find_go k (layout 0 (s0 :: rest)) 0 =
            some (j, ⟨(s0 :: rest)[j], sumBefore (s0 :: rest) j, 0⟩) := by
          rw [heq]
          simp
        have hfind : (⟨layout 0 (s0 :: rest), 0⟩ : ChunkedFile).chunk_find k =
            .ok (⟨layout 0 (s0 :: rest), j⟩,
              ⟨(s0 :: rest)[j], sumBefore (s0 :: rest) j, 0⟩) := by
          unfold ChunkedFile.chunk_find
          rw [heq']
        simp only [hfind, except_bind_ok]
        have hcerr : Chunk.seek
            ⟨(s0 :: rest)[j], sumBefore (s0 :: rest) j, 0⟩ k =
            .error .outOfRange := by
          unfold Chunk.seek
          rw [if_pos (Or.inr (by
            simp only [Chunk.size]
            push_cast at hend ⊢
            omega))]
        simp only [hcerr, except_bind_error]
      · next hcond =>
        exfalso
        simp only [Chunk.endPos, Chunk.size, not_or, not_lt] at hcond
        simp only [totalLen] at hover
        push_cast at hcond hover
        omega

/-- Witness for C8 at sources `[[1,2],[3]]` and offset 2. -/
theorem c8_seek_bounds_witness :
    (0 ≤ (2 : Int) → (2 : Int) ≤ (totalLen [[1, 2], [3]] : Int) →
      ∃ S1, ChunkedFile.seek (ChunkedFile.init [[1, 2], [3]]) 2 0 = .ok S1) ∧
    ((2 : Int) < 0 ∨ (totalLen [[1, 2], [3]] : Int) < 2 →
      ChunkedFile.seek (ChunkedFile.init [[1, 2], [3]]) 2 0 =
        .error .outOfRange) :=
  c8_seek_bounds [[1, 2], [3]] (by decide) (by decide) 2

/-! ### C2: seek, tell and read land in the right source -/

/-- Claim C2: after building a stream from nonempty sources and seeking to
absolute offset `k`, `tell` reports `k`, and the next `read` (of any
nonzero request) succeeds and returns a nonempty run of bytes drawn from
the unique source `i` whose half-open interval contains `k`, starting at
in-source offset `k - sumBefore i` - including when `k` lies exactly on a
source boundary. -/
theorem c2_seek_tell_read (sources : List (List Nat))
    (hall : ∀ s ∈ sources, s ≠ []) (k i : Nat) (hi : i < sources.length)
    (hlo : sumBefore sources i ≤ k)
    (hhi : k < sumBefore sources i + (sources[i]).length)
    (size : Int) (hsz : size ≠ 0) :
    ∃ S1, ChunkedFile.seek (ChunkedFile.init sources) (k : Int) 0 = .ok S1 ∧
      S1.tell = .ok k ∧
      ∃ S2, S1.read size = .ok
        ((if size < 0 then (sources[i]).drop (k - sumBefore sources i)
          else ((sources[i]).drop (k - sumBefore sources i)).take size.toNat),
         S2) ∧
      (if size < 0 then (sources[i]).drop (k - sumBefore sources i)
       else ((sources[i]).drop (k - sumBefore sources i)).take size.toNat)
        ≠ [] := by
  have hne : sources ≠ [] := by
    rintro rfl
    simp at hi
  have hk : k ≤ totalLen sources := by
    have h1 := sumBefore_succ_of_lt sources i hi
    have h2 := sumBefore_le_total sources (i + 1)
    omega
  have hkT : k < totalLen sources := by
    have h1 := sumBefore_succ_of_lt sources i hi
    have h2 := sumBefore_le_total sources (i + 1)
    omega
  obtain ⟨j, hj, hseek, hjlo, hjhi⟩ := seek_fresh sources hne hall k hk
  have hlaylen : (layout 0 sources).length = sources.length :=
    layout_length sources 0 hall
  have hS1get : ((layout 0 sources).set j
      ⟨sources[j], sumBefore sources j, k - sumBefore sources j⟩)[j]? =
      some ⟨sources[j], sumBefore sources j, k - sumBefore sources j⟩ :=
    List.getElem?_set_self (by omega)
  have hch : (⟨(layout 0 sources).set j
      ⟨sources[j], sumBefore sources j, k - sumBefore sources j⟩, j⟩ :
        ChunkedFile).chunk =
      .ok ⟨sources[j], sumBefore sources j, k - sumBefore sources j⟩ := by
    unfold ChunkedFile.chunk
    rw [show (⟨(layout 0 sources).set j
      ⟨sources[j], sumBefore sources j, k - sumBefore sources j⟩, j⟩ :
        ChunkedFile).chunks[(⟨(layout 0 sources).set j
      ⟨sources[j], sumBefore sources j, k - sumBefore sources j⟩, j⟩ :
        ChunkedFile).index]? =
      some ⟨sources[j], sumBefore sources j, k - sumBefore sources j⟩
      from hS1get]
  have htell : (⟨(layout 0 sources).set j
      ⟨sources[j], sumBefore sources j, k - sumBefore sources j⟩, j⟩ :
        ChunkedFile).tell = .ok k := by
    unfold ChunkedFile.tell
    simp only [hch, except_bind_ok]
    have h1 : (⟨sources[j], sumBefore sources j,
        k - sumBefore sources j⟩ : Chunk).tell = k := by
      simp only [Chunk.tell]
      omega
    rw [h1]
    rfl
  refine ⟨_, hseek, htell, ?_⟩
  have hspec := read_two_chunk_spec
    ⟨(layout 0 sources).set j
      ⟨sources[j], sumBefore sources j, k - sumBefore sources j⟩, j⟩
    size ⟨sources[j], sumBefore sources j, k - sumBefore sources j⟩ hS1get
  by_cases hcase : k < sumBefore sources j + (sources[j]).length
  · -- interior of source j: the first read already yields bytes
    have hij : i = j := interval_unique sources k i j hi hj hlo hhi hjlo hcase
    subst hij
    have havail : (sources[i]).drop (k - sumBefore sources i) ≠ [] := by
      rw [Ne, List.drop_eq_nil_iff]
      omega
    have hout : (if size < 0 then (sources[i]).drop (k - sumBefore sources i)
        else ((sources[i]).drop (k - sumBefore sources i)).take size.toNat)
        ≠ [] := by
      split
      · exact havail
      · next hnlt =>
        rw [Ne, List.take_eq_nil_iff]
        push_neg
        exact ⟨by omega, havail⟩
    have hd1 : ((⟨sources[i], sumBefore sources i,
        k - sumBefore sources i⟩ : Chunk).read size).1 =
        (if size < 0 then (sources[i]).drop (k - sumBefore sources i)
         else ((sources[i]).drop (k - sumBefore sources i)).take
           size.toNat) := rfl
    have h1 := hspec.1 (by rw [hd1]; exact hout)
    rw [hd1] at h1
    exact ⟨_, h1, hout⟩
  · -- k is exactly the end of source j: read advances to source j + 1
    have hbnd : k = sumBefore sources j + (sources[j]).length := by omega
    have hj1 : j + 1 < sources.length := by
      rcases Nat.lt_or_ge (j + 1) sources.length with h | h
      · exact h
      · exfalso
        have hj1e : j + 1 = sources.length := by omega
        have := sumBefore_succ_of_lt sources j hj
        rw [hj1e] at this
        rw [sumBefore_length] at this
        omega
    have hsb1 : sumBefore sources (j + 1) =
        sumBefore sources j + (sources[j]).length :=
      sumBefore_succ_of_lt sources j hj
    have hlen1 : (sources[j + 1]).length ≠ 0 := by
      have := hall (sources[j + 1]) (sources.getElem_mem hj1)
      simpa [List.length_eq_zero] using this
    have hij : i = j + 1 := by
      refine interval_unique sources k i (j + 1) hi hj1 hlo hhi ?_ ?_
      · omega
      · omega
    have hd1 : ((⟨sources[j], sumBefore sources j,
        k - sumBefore sources j⟩ : Chunk).read size).1 = [] := by
      have hdrop : (sources[j]).drop (k - sumBefore sources j) = [] := by
        rw [List.drop_eq_nil_iff]
        omega
      simp [Chunk.read, hdrop]
    have hlt : (⟨(layout 0 sources).set j
        ⟨sources[j], sumBefore sources j, k - sumBefore sources j⟩, j⟩ :
          ChunkedFile).index + 1 <
        (⟨(layout 0 sources).set j
        ⟨sources[j], sumBefore sources j, k - sumBefore sources j⟩, j⟩ :
          ChunkedFile).chunks.length := by
      simpa [List.length_set, hlaylen] using hj1
    have hc2 : ((layout 0 sources).set j
        ⟨sources[j], sumBefore sources j, k - sumBefore sources j⟩)[j + 1]? =
        some ⟨sources[j + 1], sumBefore sources (j + 1), 0⟩ := by
      rw [List.getElem?_set_ne (by omega)]
      rw [layout_getElem? sources 0 hall (j + 1) hj1]
      simp
    have h3 := hspec.2.2.1 hd1 hlt
      ⟨sources[j + 1], sumBefore sources (j + 1), 0⟩ hc2
    have hd2 : ((⟨sources[j + 1], sumBefore sources (j + 1), 0⟩ :
        Chunk).read size).1 =
        (if size < 0 then (sources[i]).drop (k - sumBefore sources i)
         else ((sources[i]).drop (k - sumBefore sources i)).take
           size.toNat) := by
      subst hij
      have hz : k - sumBefore sources (j + 1) = 0 := by omega
      rw [hz]
      simp [Chunk.read]
    have hout : (if size < 0 then
        (sources[i]).drop (k - sumBefore sources i)
        else ((sources[i]).drop (k - sumBefore sources i)).take size.toNat)
        ≠ [] := by
      subst hij
      have hz : k - sumBefore sources (j + 1) = 0 := by omega
      rw [hz]
      simp only [List.drop_zero]
      split
      · exact hall _ (sources.getElem_mem hj1)
      · next hnlt =>
        rw [Ne, List.take_eq_nil_iff]
        push_neg
        exact ⟨by omega, hall _ (sources.getElem_mem hj1)⟩
    rw [hd2] at h3
    exact ⟨_, h3, hout⟩

/-- Witness for C2: sources `[[10,11,12],[20,21]]`, seeking to the exact
source boundary `k = 3`, which lies in source 1's interval `[3, 5)`. -/
theorem c2_seek_tell_read_witness :
    ∃ S1, ChunkedFile.seek (ChunkedFile.init [[10, 11, 12], [20, 21]])
        ((3 : Nat) : Int) 0 = .ok S1 ∧
      S1.tell = .ok 3 ∧
      ∃ S2, S1.read (-1) = .ok
        ((if (-1 : Int) < 0 then
            [[10, 11, 12], [20, 21]][1].drop
              (3 - sumBefore [[10, 11, 12], [20, 21]] 1)
          else ([[10, 11, 12], [20, 21]][1].drop
              (3 - sumBefore [[10, 11, 12], [20, 21]] 1)).take
            (-1 : Int).toNat), S2) ∧
      (if (-1 : Int) < 0 then
          [[10, 11, 12], [20, 21]][1].drop
            (3 - sumBefore [[10, 11, 12], [20, 21]] 1)
        else ([[10, 11, 12], [20, 21]][1].drop
            (3 - sumBefore [[10, 11, 12], [20, 21]] 1)).take
          (-1 : Int).toNat) ≠ [] :=
  c2_seek_tell_read [[10, 11, 12], [20, 21]] (by decide) 3 1 (by decide)
    (by decide) (by decide) (-1) (by decide)

end Disunity
